import Mathlib

/-!
Verification of the log-forwarding and ingestion-verification core of the
`logstash-syslogserver` repository, shallowly embedded in Lean 4.

The embedding covers:
* `format_syslog_message`, `send_log`, `find_log_files` and the per-pass
  processing/deletion loop of `log-sender/send_logs.py`;
* the watch loop of `test_count_logs.py` (lines 243-281).

External effects are modelled explicitly: the wall clock is a `DateTime`
value passed in, the local hostname is a `String` parameter, the transport
is an oracle `Nat → Bool` giving the outcome of the n-th send attempt, and
the filesystem is a finite association list of paths to line lists whose
order is the directory-scan order.
-/

namespace SyslogServer

/-- Python whitespace for `str.strip()`: space, tab, newline, carriage
return, vertical tab, form feed. -/
def isPySpace (c : Char) : Bool :=
  c = ' ' || c = '\t' || c = '\n' || c = '\r' || c = '\x0b' || c = '\x0c'

/-- Python `str.strip()` on a character list: drop leading and trailing
whitespace. -/
def pyStripList (l : List Char) : List Char :=
  ((l.dropWhile isPySpace).reverse.dropWhile isPySpace).reverse

/-- Python `str.strip()`: drop leading and trailing whitespace. -/
def pyStrip (s : String) : String :=
  String.mk (pyStripList s.toList)

/-- Python `str.find(c)` on a list of characters: index of the first
occurrence, `-1` when absent. -/
def pyFindAux (c : Char) : List Char → Int
  | [] => -1
  | a :: as =>
    if a = c then 0
    else
      let r := pyFindAux c as
      if r < 0 then -1 else r + 1

/-- Python `s.find(c)`. -/
def pyFind (s : String) (c : Char) : Int :=
  pyFindAux c s.toList

/-- Python `str.capitalize()`: first character uppercased, the rest
lowercased. -/
def pyCapitalize (s : String) : String :=
  match s.toList with
  | [] => ""
  | c :: cs => String.mk (c.toUpper :: cs.map Char.toLower)

/-- A broken-down local time, standing in for `datetime.datetime.now()`. -/
structure DateTime where
  month : Fin 12
  day : Nat
  hour : Nat
  minute : Nat
  second : Nat

/-- Format code `%b`: abbreviated month name. -/
def monthAbbrev (m : Fin 12) : String :=
  ["Jan", "Feb", "Mar", "Apr", "May", "Jun",
   "Jul", "Aug", "Sep", "Oct", "Nov", "Dec"].getD m.val "Jan"

/-- Zero-padded two-digit rendering used by `%d`, `%H`, `%M`, `%S`. -/
def pad2 (n : Nat) : String :=
  if n < 10 then "0" ++ toString n else toString n

/-- Python `strftime("%b %d %H:%M:%S")` of `send_logs.py` line 46. -/
def strftimeSyslog (d : DateTime) : String :=
  monthAbbrev d.month ++ " " ++ pad2 d.day ++ " " ++
    pad2 d.hour ++ ":" ++ pad2 d.minute ++ ":" ++ pad2 d.second

/-- The already-syslog heuristic of `send_logs.py` line 39:
`line[:6].find(' ') > 0 and line[0].isalpha()`.  (`line[0]` is only
evaluated on a non-empty line; the `headD` default is unreachable because
the blank check of line 35 fires first on the empty string.) -/
def looksLikeSyslog (line : String) : Bool :=
  0 < pyFind (String.mk (line.toList.take 6)) ' ' && (line.toList.headD ' ').isAlpha

/-- Host resolution of `send_logs.py` lines 47-48: `if not host:
host = socket.gethostname()`.  Python falsiness makes both `None` and the
empty string fall back to the local hostname. -/
def resolveHost (localHost : String) : Option String → String
  | none => localHost
  | some h => if h = "" then localHost else h

/-- Embedding of `format_syslog_message(line, host)` of `send_logs.py` lines 30-50.
`now` is the value `datetime.datetime.now()` would return and `localHost`
the value of `socket.gethostname()`.  In the pass-through branch the code
computes a hostname from the line when none is supplied, but that local
variable does not affect the returned value, so it is not modelled. -/
def format_syslog_message (now : DateTime) (localHost : String)
    (line : String) (host : Option String) : Option String :=
  if pyStrip line = "" then
    none
  else if looksLikeSyslog line then
    some line
  else
    some (strftimeSyslog now ++ " " ++ resolveHost localHost host ++ " " ++ line)

section FormatLemmas

lemma isAlpha_ne_space {c : Char} (h : c.isAlpha = true) : c ≠ ' ' := by
  intro hc
  subst hc
  simp [Char.isAlpha, Char.isUpper, Char.isLower] at h

lemma pyFindAux_nonneg_of_mem {c : Char} {l : List Char} (h : c ∈ l) :
    0 ≤ pyFindAux c l := by
  induction l with
  | nil => simp at h
  | cons a as ih =>
    by_cases hac : a = c
    · simp [pyFindAux, hac]
    · have hmem : c ∈ as := by
        rcases List.mem_cons.mp h with h1 | h1
        · exact absurd h1.symm hac
        · exact h1
      have := ih hmem
      by_cases hr : pyFindAux c as < 0
      · omega
      · simp only [pyFindAux, hac, if_false]
        rw [if_neg hr]
        omega

lemma pyFindAux_pos {c a : Char} {as : List Char}
    (ha : a ≠ c) (h : c ∈ as) : 0 < pyFindAux c (a :: as) := by
  have hnn := pyFindAux_nonneg_of_mem h
  simp only [pyFindAux, ha, if_false]
  rw [if_neg (by omega)]
  omega

/-- An alphabetic character is not Python whitespace. -/
lemma isPySpace_eq_false_of_isAlpha {c : Char} (h : c.isAlpha = true) :
    isPySpace c = false := by
  cases hb : isPySpace c
  · rfl
  · exfalso
    unfold isPySpace at hb
    simp only [Bool.or_eq_true, decide_eq_true_eq] at hb
    have hc : c = ' ' ∨ c = '\t' ∨ c = '\n' ∨ c = '\r' ∨ c = '\x0b' ∨ c = '\x0c' := by
      tauto
    rcases hc with h1 | h1 | h1 | h1 | h1 | h1 <;> (subst h1; revert h; decide)

/-- Stripping a list whose head is non-whitespace yields a non-empty list. -/
lemma pyStripList_cons_ne_nil {c : Char} {cs : List Char}
    (hsp : isPySpace c = false) : pyStripList (c :: cs) ≠ [] := by
  intro hemp
  unfold pyStripList at hemp
  rw [List.dropWhile_cons] at hemp
  rw [hsp] at hemp
  simp only [Bool.false_eq_true, if_false] at hemp
  rw [List.reverse_eq_nil_iff] at hemp
  have hall := List.dropWhile_eq_nil_iff.mp hemp
  have hmem : c ∈ (c :: cs).reverse := by simp
  have := hall c hmem
  rw [hsp] at this
  exact Bool.false_ne_true this

/-- A line whose first character is alphabetic is not whitespace-only. -/
lemma pyStrip_ne_empty_of_head_alpha {line : String}
    (h : (line.toList.headD ' ').isAlpha = true) : pyStrip line ≠ "" := by
  cases hl : line.toList with
  | nil =>
    rw [hl] at h
    exact absurd h (by decide)
  | cons c cs =>
    rw [hl] at h
    simp only [List.headD_cons] at h
    have hsp := isPySpace_eq_false_of_isAlpha h
    intro hemp
    have hdat : pyStripList line.toList = [] := by
      have := congrArg String.data hemp
      unfold pyStrip at this
      simpa using this
    rw [hl] at hdat
    exact pyStripList_cons_ne_nil hsp hdat

end FormatLemmas

/-- C2: for every non-blank input line whose first character is alphabetic
and whose first six characters contain a space, `format_syslog_message`
returns the line unchanged, for every value of the `host` argument. -/
theorem format_passthrough_syslog_like (now : DateTime) (localHost : String)
    (line : String) (host : Option String)
    (hblank : pyStrip line ≠ "")
    (halpha : (line.toList.headD ' ').isAlpha = true)
    (hspace : ' ' ∈ line.toList.take 6) :
    format_syslog_message now localHost line host = some line := by
  have hlooks : looksLikeSyslog line = true := by
    cases hl : line.toList with
    | nil =>
      rw [hl] at hspace
      simp at hspace
    | cons c cs =>
      rw [hl] at halpha hspace
      simp only [List.headD_cons] at halpha
      have hcne : c ≠ ' ' := isAlpha_ne_space halpha
      have htake : (c :: cs).take 6 = c :: cs.take 5 := rfl
      rw [htake] at hspace
      have hmem : ' ' ∈ cs.take 5 := by
        rcases List.mem_cons.mp hspace with h1 | h1
        · exact absurd h1.symm hcne
        · exact h1
      have hpos : 0 < pyFindAux ' ' (c :: cs.take 5) := pyFindAux_pos hcne hmem
      simp only [looksLikeSyslog, Bool.and_eq_true, decide_eq_true_eq]
      constructor
      · show 0 < pyFind (String.mk (line.toList.take 6)) ' '
        rw [hl, htake]
        exact hpos
      · rw [hl]
        simpa using halpha
  simp [format_syslog_message, hblank, hlooks]

/-- Witness for C2 at the concrete line `Jan 15 server started`. -/
theorem format_passthrough_syslog_like_witness :
    pyStrip "Jan 15 server started" ≠ "" ∧
    (("Jan 15 server started" : String).toList.headD ' ').isAlpha = true ∧
    ' ' ∈ ("Jan 15 server started" : String).toList.take 6 ∧
    format_syslog_message ⟨0, 15, 1, 2, 3⟩ "localhost" "Jan 15 server started" none =
      some "Jan 15 server started" :=
  ⟨by decide, by decide, by decide,
   format_passthrough_syslog_like ⟨0, 15, 1, 2, 3⟩ "localhost"
     "Jan 15 server started" none (by decide) (by decide) (by decide)⟩

/-- C3: for every non-blank input line that does not satisfy the
syslog-timestamp heuristic, `format_syslog_message` returns the freshly
generated timestamp, then the supplied host (the local hostname when the
host argument is absent), then the original message, in that exact order. -/
theorem format_prefixes_timestamp_host (now : DateTime) (localHost : String)
    (line : String) (host : Option String)
    (hblank : pyStrip line ≠ "")
    (hnot : looksLikeSyslog line = false) :
    format_syslog_message now localHost line host =
      some (strftimeSyslog now ++ " " ++ resolveHost localHost host ++ " " ++ line) ∧
    (∀ h : String, h ≠ "" → resolveHost localHost (some h) = h) ∧
    resolveHost localHost none = localHost := by
  refine ⟨?_, ?_, rfl⟩
  · simp [format_syslog_message, hblank, hnot]
  · intro h hne
    simp [resolveHost, hne]

/-- Witness for C3 at the concrete line `2024-01-01 boot` and host `web01`. -/
theorem format_prefixes_timestamp_host_witness :
    pyStrip "2024-01-01 boot" ≠ "" ∧
    looksLikeSyslog "2024-01-01 boot" = false ∧
    format_syslog_message ⟨0, 15, 1, 2, 3⟩ "localhost" "2024-01-01 boot" (some "web01") =
      some (strftimeSyslog ⟨0, 15, 1, 2, 3⟩ ++ " " ++
        resolveHost "localhost" (some "web01") ++ " " ++ "2024-01-01 boot") :=
  ⟨by decide, by decide,
   (format_prefixes_timestamp_host ⟨0, 15, 1, 2, 3⟩ "localhost" "2024-01-01 boot"
     (some "web01") (by decide) (by decide)).1⟩

/-- C4: for every blank or whitespace-only input line,
`format_syslog_message` returns `none`, regardless of the host argument. -/
theorem format_blank_returns_none (now : DateTime) (localHost : String)
    (line : String) (host : Option String)
    (hblank : pyStrip line = "") :
    format_syslog_message now localHost line host = none := by
  simp [format_syslog_message, hblank]

/-- Witness for C4 at the whitespace-only line of a space and a tab. -/
theorem format_blank_returns_none_witness :
    pyStrip " \t " = "" ∧
    format_syslog_message ⟨0, 15, 1, 2, 3⟩ "localhost" " \t " (some "web01") = none :=
  ⟨by decide,
   format_blank_returns_none ⟨0, 15, 1, 2, 3⟩ "localhost" " \t " (some "web01") (by decide)⟩

/-! ## Filesystem model and the log-file locator -/

/-- A snapshot of the relevant part of the filesystem: regular files as an
association list from path to content lines, in directory-scan order (the
order `glob` enumerates them), plus the set of directories. -/
structure FS where
  files : List (String × List String)
  dirs : List String

/-- The paths of all regular files, in scan order. -/
def filePaths (fs : FS) : List String := fs.files.map Prod.fst

/-- Python `os.path.exists`: true for a file or a directory. -/
def pathExists (fs : FS) (p : String) : Bool :=
  decide (p ∈ filePaths fs) || decide (p ∈ fs.dirs)

/-- Content lookup, standing for `open(path)`: `none` means the open
raises (file missing). -/
def lookupFile (fs : FS) (p : String) : Option (List String) :=
  (fs.files.find? (fun e => e.1 = p)).map Prod.snd

/-- Python `str.lower()`, computed character-wise (kernel-reducible, unlike the
position-based core string functions). -/
def strToLower (s : String) : String := String.mk (s.toList.map Char.toLower)

/-- Python `s.startswith(pre)`. -/
def strStartsWith (s pre : String) : Bool := pre.toList.isPrefixOf s.toList

/-- Does `s` end with `suf`? -/
def strEndsWith (s suf : String) : Bool := suf.toList.isSuffixOf s.toList

/-- Python `os.path.basename`: the part after the last `/`. -/
def basename (p : String) : String :=
  String.mk ((p.toList.reverse.takeWhile (fun c => c != '/')).reverse)

/-- Expression `filename.split('.')[0]` of `send_logs.py` line 191: the synthetic
hostname derived from a file name. -/
def hostnameOf (path : String) : String :=
  String.mk ((basename path).toList.takeWhile (fun c => c != '.'))

/-- Does path `p` denote a file directly inside directory `d`? -/
def inDirTop (d p : String) : Bool :=
  strStartsWith p (d ++ "/") && !(p.toList.drop (d.length + 1)).contains '/'

/-- Python `glob.glob` over `dir` non-recursively: `.log` files directly in `dir`, in scan
order. -/
def globTop (fs : FS) (dir : String) : List String :=
  (filePaths fs).filter (fun p => inDirTop dir p && strEndsWith p ".log")

/-- Python `glob.glob` over `dir` recursively: `.log` files at any
depth under `dir` (`**` also matches zero directories), in scan order. -/
def globRec (fs : FS) (dir : String) : List String :=
  (filePaths fs).filter (fun p => strStartsWith p (dir ++ "/") && strEndsWith p ".log")

/-- One step of the incremental `log_files.append` loops of
`find_log_files` (lines 96-107): append when the predicate holds and the
path is not already accumulated. -/
def appendIfNew (pred : String → Bool) (acc : List String) (p : String) : List String :=
  if pred p = true ∧ p ∉ acc then acc ++ [p] else acc

/-- The final duplicate removal of `find_log_files` (lines 109-113),
keeping the first occurrence of each exact path. -/
def dedupKeepFirst (l : List String) : List String :=
  l.foldl (fun acc p => if p ∈ acc then acc else acc ++ [p]) []

/-- The name-prefix test of lines 97-98 and 104-105:
`os.path.basename(p).lower().startswith(log_type_lower)`. -/
def basenameMatches (ltLower : String) (p : String) : Bool :=
  strStartsWith (strToLower (basename p)) ltLower

/-- Embedding of `find_log_files(log_dir, log_type)` of `send_logs.py` lines 64-123. -/
def find_log_files (fs : FS) (log_dir log_type : String) : List String :=
  let ltLower := strToLower log_type
  let raw :=
    if ltLower = "all" then
      globRec fs log_dir ++ globTop fs log_dir
    else
      let typeDir := log_dir ++ "/" ++ pyCapitalize log_type
      let step1 := if pathExists fs typeDir = true then globRec fs typeDir else []
      let mainFile := log_dir ++ "/" ++ log_type ++ ".log"
      let mainFileCap := log_dir ++ "/" ++ pyCapitalize log_type ++ ".log"
      let step2 := step1 ++ (if pathExists fs mainFile = true then [mainFile] else [])
      let step3 := step2 ++
        (if pathExists fs mainFileCap = true ∧ mainFileCap ≠ mainFile then [mainFileCap] else [])
      let step4 := (globTop fs log_dir).foldl (appendIfNew (basenameMatches ltLower)) step3
      (globRec fs log_dir).foldl (appendIfNew (basenameMatches ltLower)) step4
  dedupKeepFirst raw

/-- The directory of the C1 scenario: exactly `Linux.log`, `linux.log`
and `LINUX.log` in one directory, in that scan order. -/
def c1fs : FS :=
  ⟨[("logs/Linux.log", []), ("logs/linux.log", []), ("logs/LINUX.log", [])], ["logs"]⟩

/-- C1 counterexample: on a directory holding `Linux.log`, `linux.log` and
`LINUX.log`, `find_log_files` for type `linux` does NOT return exactly one
file reference — de-duplication is by exact path, not case-insensitive
basename, so all three distinct paths survive. -/
theorem find_log_files_not_single_for_cased_triple :
    ¬ (find_log_files c1fs "logs" "linux").length = 1 := by decide

/-- C1 amended: on that directory, `find_log_files` for type `linux`
returns exactly three file references, one per distinct path; duplicates
are collapsed by exact path equality only, and the order places the
exact-case `linux.log` match first, then the capitalized `Linux.log`
match, then the remaining scan-order match `LINUX.log`. -/
theorem find_log_files_exact_path_dedup_triple :
    find_log_files c1fs "logs" "linux" =
      ["logs/linux.log", "logs/Linux.log", "logs/LINUX.log"] := by decide

/-! ## The forwarding pass of `main` (`send_logs.py` lines 185-246) -/

/-- Outcome of one transport attempt; external to the program. -/
inductive SendOutcome
  | delivered
  | transportError
deriving DecidableEq

/-- Embedding of `send_log` (lines 52-62): the `try/except` catches every transport
exception and converts it to the return value `False`, so the embedding is
a total function to `Bool` — it cannot raise by construction.  The
`logger.error` call on the failure path is an output-only effect and is
not modelled. -/
def send_log (outcome : SendOutcome) : Bool :=
  match outcome with
  | .delivered => true
  | .transportError => false

/-- Python truthiness of `formatted_line` at line 206: `None` and the
empty string are falsy. -/
def pyTruthy : Option String → Bool
  | none => false
  | some s => s != ""

/-- Result of streaming one file's lines (lines 202-212). -/
structure LineLoopResult where
  sent : Nat
  nextIdx : Nat
  attempts : List (Nat × String)

/-- The inner per-line loop of lines 202-212: strip the line, format it,
and when the result is truthy attempt one send, counting it only on
success.  `oracle` gives the transport outcome of the n-th attempt of the
run and `idx` is the global attempt counter; `pos` is the 0-based line
position; `attempts` records `(position, formatted line)` of every send
attempt, in order. -/
def runLines (fmt : String → Option String) (oracle : Nat → SendOutcome) :
    List String → Nat → Nat → LineLoopResult
  | [], _, idx => ⟨0, idx, []⟩
  | l :: ls, pos, idx =>
    let fl := fmt (pyStrip l)
    if pyTruthy fl = true then
      let r := runLines fmt oracle ls (pos + 1) (idx + 1)
      ⟨(if send_log (oracle idx) = true then 1 else 0) + r.sent, r.nextIdx,
        (pos, fl.getD "") :: r.attempts⟩
    else
      runLines fmt oracle ls (pos + 1) idx

/-- The send attempt a single raw line gives rise to, if any. -/
def attemptOf (fmt : String → Option String) (l : String) : Option String :=
  let fl := fmt (pyStrip l)
  if pyTruthy fl = true then some (fl.getD "") else none

/-- The mutable state of one pass of the `while` loop (lines 185-221). -/
structure SenderState where
  totalSent : Nat
  totalLines : Nat
  processed : List String
  idx : Nat
  trace : List (String × Nat × String)

/-- State at the top of a pass (lines 182, 186-187). -/
def initState : SenderState := ⟨0, 0, [], 0, []⟩

/-- Per-file processing (lines 189-219): derive the synthetic hostname
from the file name, stream the lines, and append the file to the
processed list only after its full pass completes (lines 214-216, inside
the `try`).  A failed `open` (missing file) hits the `except` clause,
which logs and continues with the state untouched. -/
def processOneFile (now : DateTime) (localHost : String)
    (oracle : Nat → SendOutcome) (delete : Bool) (fs : FS)
    (st : SenderState) (path : String) : SenderState :=
  match lookupFile fs path with
  | none => st
  | some lines =>
    let host := hostnameOf path
    let r := runLines (fun l => format_syslog_message now localHost l (some host))
      oracle lines 0 st.idx
    { totalSent := st.totalSent + r.sent
      totalLines := st.totalLines + lines.length
      processed :=
        if delete = true ∧ path ∉ st.processed then st.processed ++ [path]
        else st.processed
      idx := r.nextIdx
      trace := st.trace ++ r.attempts.map (fun q => (path, q.1, q.2)) }

/-- The `for log_file in log_files` loop of line 189. -/
def processFiles (now : DateTime) (localHost : String)
    (oracle : Nat → SendOutcome) (delete : Bool) (fs : FS) :
    List String → SenderState → SenderState
  | [], st => st
  | p :: ps, st =>
    processFiles now localHost oracle delete fs ps
      (processOneFile now localHost oracle delete fs st p)

/-- Outcome of one deletion attempt (lines 226-233). -/
inductive DelOutcome
  | deleted
  | skippedMissing
  | errored
deriving DecidableEq

/-- Python `os.remove`. -/
def removeFile (fs : FS) (p : String) : FS :=
  ⟨fs.files.filter (fun e => e.1 != p), fs.dirs⟩

/-- One iteration of the deletion loop (lines 226-233): `os.remove` only
runs when `os.path.exists` holds, so an already-missing file is treated as
already deleted rather than as an error; the `errored` outcome is the
`except` clause, reachable only when the path exists but is not a regular
file. -/
def deleteOne (fs : FS) (p : String) : FS × DelOutcome :=
  if pathExists fs p = true then
    if p ∈ filePaths fs then (removeFile fs p, .deleted)
    else (fs, .errored)
  else (fs, .skippedMissing)

/-- The batched deletion of all processed files (lines 224-236). -/
def deleteAll : FS → List String → FS × List DelOutcome
  | fs, [] => (fs, [])
  | fs, p :: ps =>
    let r := deleteOne fs p
    let rest := deleteAll r.1 ps
    (rest.1, r.2 :: rest.2)

/-- Result of one pass of the `while` loop. -/
structure PassResult where
  state : SenderState
  fsAfter : FS
  delOutcomes : List DelOutcome

/-- One iteration of the `while` loop of lines 185-246 (the non-looping
run performs exactly one): process every file, then — only when deletion
is enabled and some file was processed — delete the processed files in a
single batch at the end of the pass. -/
def runOnePass (now : DateTime) (localHost : String)
    (oracle : Nat → SendOutcome) (delete : Bool)
    (log_files : List String) (fs : FS) : PassResult :=
  let st := processFiles now localHost oracle delete fs log_files initState
  ⟨st,
   if delete = true ∧ st.processed ≠ [] then (deleteAll fs st.processed).1 else fs,
   if delete = true ∧ st.processed ≠ [] then (deleteAll fs st.processed).2 else []⟩

/-! ## CLI flag model (`send_logs.py` lines 140-159) -/

/-- Semantics of an `argparse` `store_true` option semantics: the destination becomes `True` when
the flag appears on the command line and keeps the declared default
otherwise. -/
def storeTrueFlag (argv : List String) (flag : String) (dflt : Bool) : Bool :=
  if flag ∈ argv then true else dflt

/-- Flag `args.keep_logs` (lines 142-143): `store_true` with `default=True`. -/
def argKeepLogs (argv : List String) : Bool :=
  storeTrueFlag argv "--keep-logs" true

/-- Flag `args.delete_after_send` (lines 140-141): `store_true` with
`default=False`. -/
def argDeleteAfterSend (argv : List String) : Bool :=
  storeTrueFlag argv "--delete-after-send" false

/-- Line 159: `delete_after_send = args.delete_after_send and not
args.keep_logs`. -/
def effectiveDeleteAfterSend (argv : List String) : Bool :=
  argDeleteAfterSend argv && !(argKeepLogs argv)

/-! ## Properties of the per-line send loop -/

/-- Lines of a list paired with their 0-based positions, starting at `n`. -/
def enumFromL (n : Nat) : List String → List (Nat × String)
  | [] => []
  | a :: as => (n, a) :: enumFromL (n + 1) as

/-- The send attempts of one file are exactly the truthy formatted lines,
paired with their positions, in file order — independent of the transport
oracle and of the attempt counter. -/
lemma runLines_attempts_eq (fmt : String → Option String)
    (oracle : Nat → SendOutcome) :
    ∀ (ls : List String) (pos idx : Nat),
      (runLines fmt oracle ls pos idx).attempts =
        (enumFromL pos ls).filterMap
          (fun e => (attemptOf fmt e.2).map (fun f => (e.1, f))) := by
  intro ls
  induction ls with
  | nil => intro pos idx; simp [runLines, enumFromL]
  | cons l ls ih =>
    intro pos idx
    by_cases h : pyTruthy (fmt (pyStrip l)) = true
    · have ha : attemptOf fmt l = some ((fmt (pyStrip l)).getD "") := by
        simp [attemptOf, h]
      simp [runLines, h, enumFromL, ha, ih]
    · have ha : attemptOf fmt l = none := by
        simp [attemptOf, h]
      simp [runLines, h, enumFromL, ha, ih]

/-- Every attempted position is at least the starting position. -/
lemma runLines_attempts_pos_le (fmt : String → Option String)
    (oracle : Nat → SendOutcome) :
    ∀ (ls : List String) (pos idx : Nat) (q : Nat × String),
      q ∈ (runLines fmt oracle ls pos idx).attempts → pos ≤ q.1 := by
  intro ls
  induction ls with
  | nil => intro pos idx q hq; simp [runLines] at hq
  | cons l ls ih =>
    intro pos idx q hq
    by_cases h : pyTruthy (fmt (pyStrip l)) = true
    · simp only [runLines, h, if_true] at hq
      rcases List.mem_cons.mp hq with h1 | h1
      · subst h1; exact Nat.le_refl pos
      · exact Nat.le_of_succ_le (ih (pos + 1) (idx + 1) q h1)
    · simp only [runLines, h, if_false] at hq
      exact Nat.le_of_succ_le (ih (pos + 1) idx q hq)

/-- The attempted positions are strictly increasing: line order within a
file is preserved, and no position is attempted twice. -/
lemma runLines_attempts_sorted (fmt : String → Option String)
    (oracle : Nat → SendOutcome) :
    ∀ (ls : List String) (pos idx : Nat),
      ((runLines fmt oracle ls pos idx).attempts.map Prod.fst).Sorted (· < ·) := by
  intro ls
  induction ls with
  | nil => intro pos idx; simp [runLines]
  | cons l ls ih =>
    intro pos idx
    by_cases h : pyTruthy (fmt (pyStrip l)) = true
    · simp only [runLines, h, if_true, List.map_cons]
      rw [List.sorted_cons]
      refine ⟨?_, ih (pos + 1) (idx + 1)⟩
      intro b hb
      rcases List.mem_map.mp hb with ⟨q, hq, hb'⟩
      have := runLines_attempts_pos_le fmt oracle ls (pos + 1) (idx + 1) q hq
      omega
    · simp only [runLines, h, if_false]
      exact ih (pos + 1) idx

/-- At most one send attempt per attempted line. -/
lemma runLines_attempts_nodup (fmt : String → Option String)
    (oracle : Nat → SendOutcome) (ls : List String) (pos idx : Nat) :
    ((runLines fmt oracle ls pos idx).attempts.map Prod.fst).Nodup :=
  (runLines_attempts_sorted fmt oracle ls pos idx).nodup

/-- No more lines are attempted than the file has. -/
lemma runLines_attempts_length_le (fmt : String → Option String)
    (oracle : Nat → SendOutcome) :
    ∀ (ls : List String) (pos idx : Nat),
      (runLines fmt oracle ls pos idx).attempts.length ≤ ls.length := by
  intro ls
  induction ls with
  | nil => intro pos idx; simp [runLines]
  | cons l ls ih =>
    intro pos idx
    by_cases h : pyTruthy (fmt (pyStrip l)) = true
    · simp only [runLines, h, if_true, List.length_cons]
      exact Nat.succ_le_succ (ih (pos + 1) (idx + 1))
    · simp only [runLines, h, if_false, List.length_cons]
      exact Nat.le_succ_of_le (ih (pos + 1) idx)

/-- A line is counted as sent exactly when its transport attempt
succeeded. -/
lemma runLines_sent_eq_countP (fmt : String → Option String)
    (oracle : Nat → SendOutcome) :
    ∀ (ls : List String) (pos idx : Nat),
      (runLines fmt oracle ls pos idx).sent =
        (List.range (runLines fmt oracle ls pos idx).attempts.length).countP
          (fun j => send_log (oracle (idx + j))) := by
  intro ls
  induction ls with
  | nil => intro pos idx; simp [runLines]
  | cons l ls ih =>
    intro pos idx
    by_cases h : pyTruthy (fmt (pyStrip l)) = true
    · simp only [runLines, h, if_true, List.length_cons]
      rw [List.range_succ_eq_map, List.countP_cons, List.countP_map]
      have harg : ((fun j => send_log (oracle (idx + j))) ∘ Nat.succ) =
          (fun j => send_log (oracle (idx + 1 + j))) := by
        funext j
        simp only [Function.comp]
        congr 2
        omega
      rw [harg, ← ih (pos + 1) (idx + 1)]
      simp only [Nat.add_zero]
      exact Nat.add_comm _ _
    · simp only [runLines, h, if_false]
      exact ih (pos + 1) idx

/-- Successful sends never exceed attempts, which never exceed the file's
line count. -/
lemma runLines_sent_le (fmt : String → Option String)
    (oracle : Nat → SendOutcome) (ls : List String) (pos idx : Nat) :
    (runLines fmt oracle ls pos idx).sent ≤ ls.length := by
  have h1 := runLines_sent_eq_countP fmt oracle ls pos idx
  have h2 := List.countP_le_length
    (p := fun j => send_log (oracle (idx + j)))
    (l := List.range (runLines fmt oracle ls pos idx).attempts.length)
  have h3 := runLines_attempts_length_le fmt oracle ls pos idx
  simp only [List.length_range] at h2
  omega

/-- C8: a failed transmission makes `send_log` return `False` (the
`try/except` converts every transport exception into the return value, so
the call cannot raise); the set and order of send attempts do not depend
on transport outcomes — a failure neither aborts the pass nor triggers a
retry, the loop simply moves to the next line; and a line is counted as
sent exactly when its single attempt succeeded, so failures are never
counted. -/
theorem send_failure_is_nonfatal :
    send_log SendOutcome.transportError = false ∧
    send_log SendOutcome.delivered = true ∧
    (∀ (fmt : String → Option String) (o₁ o₂ : Nat → SendOutcome)
        (ls : List String) (pos idx : Nat),
      (runLines fmt o₁ ls pos idx).attempts = (runLines fmt o₂ ls pos idx).attempts) ∧
    (∀ (fmt : String → Option String) (oracle : Nat → SendOutcome)
        (ls : List String) (pos idx : Nat),
      (runLines fmt oracle ls pos idx).sent =
        (List.range (runLines fmt oracle ls pos idx).attempts.length).countP
          (fun j => send_log (oracle (idx + j)))) := by
  refine ⟨rfl, rfl, ?_, runLines_sent_eq_countP⟩
  intro fmt o₁ o₂ ls pos idx
  rw [runLines_attempts_eq fmt o₁, runLines_attempts_eq fmt o₂]

/-- The trace one file contributes to a pass: its truthy formatted lines
with their positions, tagged with the file path. -/
def fileAttempts (now : DateTime) (lh : String) (p : String)
    (lines : List String) : List (String × Nat × String) :=
  ((enumFromL 0 lines).filterMap
      (fun e => (attemptOf (fun l => format_syslog_message now lh l (some (hostnameOf p))) e.2).map
        (fun f => (e.1, f)))).map (fun q => (p, q.1, q.2))

/-- The trace a listed file contributes: nothing when the open fails. -/
def fileTraceOf (now : DateTime) (lh : String) (fs : FS) (p : String) :
    List (String × Nat × String) :=
  match lookupFile fs p with
  | none => []
  | some lines => fileAttempts now lh p lines

/-- The global send trace of a pass is the concatenation of the per-file
traces in the order the files are listed. -/
lemma processFiles_trace (now : DateTime) (lh : String)
    (oracle : Nat → SendOutcome) (delete : Bool) (fs : FS) :
    ∀ (files : List String) (st : SenderState),
      (processFiles now lh oracle delete fs files st).trace =
        st.trace ++ (files.map (fileTraceOf now lh fs)).flatten := by
  intro files
  induction files with
  | nil => intro st; simp [processFiles]
  | cons p ps ih =>
    intro st
    simp only [processFiles, List.map_cons, List.flatten_cons]
    rw [ih]
    have hone : (processOneFile now lh oracle delete fs st p).trace =
        st.trace ++ fileTraceOf now lh fs p := by
      cases hl : lookupFile fs p with
      | none => simp [processOneFile, hl, fileTraceOf]
      | some lines =>
        simp only [processOneFile, hl, fileTraceOf]
        rw [runLines_attempts_eq]
        rfl
    rw [hone, List.append_assoc]

/-- C9: within one pass every file is forwarded in full-line order — the
send attempts of a file are exactly its truthy formatted lines with their
positions, in file order; the attempted positions are strictly increasing
and duplicate-free, so each non-blank line is sent at most once and the
send order equals the file order; and the pass trace is the per-file
traces concatenated in listed file order (single-threaded, no
reordering). -/
theorem forward_order_preserved :
    (∀ (fmt : String → Option String) (oracle : Nat → SendOutcome)
        (ls : List String) (pos idx : Nat),
      (runLines fmt oracle ls pos idx).attempts =
        (enumFromL pos ls).filterMap
          (fun e => (attemptOf fmt e.2).map (fun f => (e.1, f)))) ∧
    (∀ (fmt : String → Option String) (oracle : Nat → SendOutcome)
        (ls : List String) (pos idx : Nat),
      ((runLines fmt oracle ls pos idx).attempts.map Prod.fst).Sorted (· < ·) ∧
      ((runLines fmt oracle ls pos idx).attempts.map Prod.fst).Nodup) ∧
    (∀ (now : DateTime) (lh : String) (oracle : Nat → SendOutcome)
        (delete : Bool) (fs : FS) (files : List String) (st : SenderState),
      (processFiles now lh oracle delete fs files st).trace =
        st.trace ++ (files.map (fileTraceOf now lh fs)).flatten) :=
  ⟨runLines_attempts_eq, fun fmt oracle ls pos idx =>
    ⟨runLines_attempts_sorted fmt oracle ls pos idx,
     runLines_attempts_nodup fmt oracle ls pos idx⟩,
   processFiles_trace⟩

/-! ## The deletion policy (C5) and the CLI deletion gate (C10) -/

/-- Total line count the pass adds for a list of files: each readable
file contributes its raw line count, an unreadable one nothing. -/
def expectedLines (fs : FS) (files : List String) : Nat :=
  (files.map (fun p => ((lookupFile fs p).map List.length).getD 0)).sum

lemma processOneFile_totalLines (now : DateTime) (lh : String)
    (oracle : Nat → SendOutcome) (delete : Bool) (fs : FS)
    (st : SenderState) (p : String) :
    (processOneFile now lh oracle delete fs st p).totalLines =
      st.totalLines + ((lookupFile fs p).map List.length).getD 0 := by
  cases hl : lookupFile fs p with
  | none => simp [processOneFile, hl]
  | some lines => simp [processOneFile, hl]

lemma processOneFile_totalSent_le (now : DateTime) (lh : String)
    (oracle : Nat → SendOutcome) (delete : Bool) (fs : FS)
    (st : SenderState) (p : String) :
    (processOneFile now lh oracle delete fs st p).totalSent ≤
      st.totalSent + ((lookupFile fs p).map List.length).getD 0 := by
  cases hl : lookupFile fs p with
  | none => simp [processOneFile, hl]
  | some lines =>
    simp only [processOneFile, hl, Option.map_some, Option.getD_some]
    exact Nat.add_le_add_left (runLines_sent_le _ oracle lines 0 st.idx) _

lemma processOneFile_processed_eq (now : DateTime) (lh : String)
    (oracle : Nat → SendOutcome) (delete : Bool) (fs : FS)
    (st : SenderState) (p : String) :
    (processOneFile now lh oracle delete fs st p).processed =
      if (lookupFile fs p).isSome = true ∧ delete = true ∧ p ∉ st.processed
      then st.processed ++ [p] else st.processed := by
  cases hl : lookupFile fs p with
  | none => simp [processOneFile, hl]
  | some lines => simp [processOneFile, hl]

lemma processFiles_totalLines (now : DateTime) (lh : String)
    (oracle : Nat → SendOutcome) (delete : Bool) (fs : FS) :
    ∀ (files : List String) (st : SenderState),
      (processFiles now lh oracle delete fs files st).totalLines =
        st.totalLines + expectedLines fs files := by
  intro files
  induction files with
  | nil => intro st; simp [processFiles, expectedLines]
  | cons p ps ih =>
    intro st
    simp only [processFiles]
    rw [ih, processOneFile_totalLines]
    simp only [expectedLines, List.map_cons, List.sum_cons]
    omega

lemma processFiles_totalSent_le (now : DateTime) (lh : String)
    (oracle : Nat → SendOutcome) (delete : Bool) (fs : FS) :
    ∀ (files : List String) (st : SenderState),
      (processFiles now lh oracle delete fs files st).totalSent ≤
        st.totalSent + expectedLines fs files := by
  intro files
  induction files with
  | nil => intro st; simp [processFiles, expectedLines]
  | cons p ps ih =>
    intro st
    simp only [processFiles]
    have h1 := ih (processOneFile now lh oracle delete fs st p)
    have h2 := processOneFile_totalSent_le now lh oracle delete fs st p
    simp only [expectedLines, List.map_cons, List.sum_cons] at h1 ⊢
    omega

/-- The ten non-blank lines of the first C5 input file. -/
def c5aLines : List String :=
  ["a1", "a2", "a3", "a4", "a5", "a6", "a7", "a8", "a9", "a10"]

/-- The five non-blank lines of the third C5 input file. -/
def c5cLines : List String := ["c1", "c2", "c3", "c4", "c5"]

/-- The C5 scenario filesystem: files of 10, 0 and 5 lines. -/
def c5fs : FS :=
  ⟨[("logs/a.log", c5aLines), ("logs/b.log", []), ("logs/c.log", c5cLines)], ["logs"]⟩

/-- The located files of the C5 scenario, in pass order. -/
def c5paths : List String := ["logs/a.log", "logs/b.log", "logs/c.log"]

/-- C5: with deletion enabled, a file joins the processed set only after
its full per-file pass (an unreadable file is never appended); processed
files are deleted in one batch at the end of the pass; deleting an
already-missing file is reported as already deleted, not as an error; and
in the one-pass scenario of 10-, 0- and 5-line files, the pass reports 15
total lines, at most 15 sent, processes all three files (the empty one
included) and removes all three from the filesystem. -/
theorem deletion_policy_batched (now : DateTime) (lh : String)
    (oracle : Nat → SendOutcome) :
    (processFiles now lh oracle true c5fs c5paths initState).totalLines = 15 ∧
    (processFiles now lh oracle true c5fs c5paths initState).totalSent ≤ 15 ∧
    (processFiles now lh oracle true c5fs c5paths initState).processed = c5paths ∧
    filePaths (runOnePass now lh oracle true c5paths c5fs).fsAfter = [] ∧
    (runOnePass now lh oracle true c5paths c5fs).delOutcomes =
      [DelOutcome.deleted, DelOutcome.deleted, DelOutcome.deleted] ∧
    (∀ (fs : FS) (p : String), pathExists fs p = false →
      deleteOne fs p = (fs, DelOutcome.skippedMissing)) ∧
    (∀ (fs : FS) (st : SenderState) (p : String), lookupFile fs p = none →
      (processOneFile now lh oracle true fs st p).processed = st.processed) := by
  have hexp : expectedLines c5fs c5paths = 15 := by decide
  have htl : (processFiles now lh oracle true c5fs c5paths initState).totalLines = 15 := by
    rw [processFiles_totalLines, hexp]
    decide
  have hts : (processFiles now lh oracle true c5fs c5paths initState).totalSent ≤ 15 := by
    have := processFiles_totalSent_le now lh oracle true c5fs c5paths initState
    rw [hexp] at this
    simpa [initState] using this
  have hpA : (processOneFile now lh oracle true c5fs initState "logs/a.log").processed =
      ["logs/a.log"] := by
    rw [processOneFile_processed_eq]
    decide
  have hpB : (processOneFile now lh oracle true c5fs
      (processOneFile now lh oracle true c5fs initState "logs/a.log")
      "logs/b.log").processed = ["logs/a.log", "logs/b.log"] := by
    rw [processOneFile_processed_eq, hpA]
    decide
  have hpC : (processOneFile now lh oracle true c5fs
      (processOneFile now lh oracle true c5fs
        (processOneFile now lh oracle true c5fs initState "logs/a.log")
        "logs/b.log") "logs/c.log").processed =
      ["logs/a.log", "logs/b.log", "logs/c.log"] := by
    rw [processOneFile_processed_eq, hpB]
    decide
  have hpf : (processFiles now lh oracle true c5fs c5paths initState).processed = c5paths := by
    show (processFiles now lh oracle true c5fs
      ["logs/a.log", "logs/b.log", "logs/c.log"] initState).processed = c5paths
    simp only [processFiles]
    rw [hpC]
    rfl
  refine ⟨htl, hts, hpf, ?_, ?_, ?_, ?_⟩
  · simp only [runOnePass]
    rw [hpf]
    decide
  · simp only [runOnePass]
    rw [hpf]
    decide
  · intro fs p h
    simp [deleteOne, h]
  · intro fs st p h
    simp [processOneFile, h]

/-- Witness for the C5 conjuncts with hypotheses, at the empty filesystem
and a missing path. -/
theorem deletion_policy_batched_witness :
    pathExists ⟨[], []⟩ "logs/x.log" = false ∧
    deleteOne ⟨[], []⟩ "logs/x.log" = (⟨[], []⟩, DelOutcome.skippedMissing) ∧
    lookupFile ⟨[], []⟩ "logs/x.log" = none ∧
    (processOneFile ⟨0, 1, 2, 3, 4⟩ "lh" (fun _ => SendOutcome.delivered) true
      ⟨[], []⟩ initState "logs/x.log").processed = initState.processed :=
  ⟨by decide,
   (deletion_policy_batched ⟨0, 1, 2, 3, 4⟩ "lh"
     (fun _ => SendOutcome.delivered)).2.2.2.2.2.1 ⟨[], []⟩ "logs/x.log" (by decide),
   by decide,
   (deletion_policy_batched ⟨0, 1, 2, 3, 4⟩ "lh"
     (fun _ => SendOutcome.delivered)).2.2.2.2.2.2 ⟨[], []⟩ initState "logs/x.log" (by decide)⟩

lemma processFiles_processed_of_no_delete (now : DateTime) (lh : String)
    (oracle : Nat → SendOutcome) (fs : FS) :
    ∀ (files : List String) (st : SenderState),
      (processFiles now lh oracle false fs files st).processed = st.processed := by
  intro files
  induction files with
  | nil => intro st; simp [processFiles]
  | cons p ps ih =>
    intro st
    simp only [processFiles]
    rw [ih, processOneFile_processed_eq]
    simp

/-- C10: `args.keep_logs` is a `store_true` option with default `True`,
so it is `True` in every invocation; hence the effective
`delete_after_send = args.delete_after_send and not args.keep_logs` is
`False` even when `--delete-after-send` is passed, no file is ever added
to the processed list, the deletion branch never runs, and every pass
leaves the filesystem unchanged. -/
theorem cli_keep_logs_prevents_deletion :
    (∀ argv : List String, argKeepLogs argv = true) ∧
    (∀ argv : List String, effectiveDeleteAfterSend argv = false) ∧
    (∀ (now : DateTime) (lh : String) (oracle : Nat → SendOutcome) (fs : FS)
        (files : List String) (st : SenderState),
      (processFiles now lh oracle false fs files st).processed = st.processed) ∧
    (∀ (now : DateTime) (lh : String) (oracle : Nat → SendOutcome)
        (argv files : List String) (fs : FS),
      (runOnePass now lh oracle (effectiveDeleteAfterSend argv) files fs).fsAfter = fs ∧
      (runOnePass now lh oracle (effectiveDeleteAfterSend argv) files fs).delOutcomes = []) := by
  have hkeep : ∀ argv : List String, argKeepLogs argv = true := by
    intro argv
    simp [argKeepLogs, storeTrueFlag]
  have heff : ∀ argv : List String, effectiveDeleteAfterSend argv = false := by
    intro argv
    simp [effectiveDeleteAfterSend, hkeep argv]
  refine ⟨hkeep, heff, processFiles_processed_of_no_delete, ?_⟩
  intro now lh oracle argv files fs
  rw [heff argv]
  constructor <;> simp [runOnePass]

/-! ## The ingestion verifier watch loop (`test_count_logs.py` lines 243-281)

Time model: polling is instantaneous and the only suspension is the
`time.sleep(interval)` at the bottom of the loop, so the k-th iteration
reads the clock at `k * interval` seconds after `start_time`.  `poll k` is
the count returned by `count_logs` on the k-th iteration.  The loop itself
is unbounded; `fuel` bounds the iterations of the embedding and `none`
means the bound was reached before a stopping policy fired. -/

/-- The watch configuration: `--no-change-timeout`, `--timeout`,
`--interval`. -/
structure WatchCfg where
  noChangeTimeout : Nat
  timeout : Nat
  interval : Nat

/-- Which stopping policy fired. -/
inductive StopReason
  | noChange
  | timeoutHit
deriving DecidableEq

/-- Variable `new_logs` of line 254: the increase since the previous poll, clamped
at zero. -/
def newLogsAt (poll : Nat → Nat) (k prev : Nat) : Nat :=
  if prev < poll k then poll k - prev else 0

/-- Variable `seconds_since_last_change` as used by the check of line 270: computed
from the clock at line 251 and reset to zero at line 265 when new logs
arrived this tick. -/
def sinceLastChange (cfg : WatchCfg) (poll : Nat → Nat)
    (k prev lastChange : Nat) : Nat :=
  if 0 < newLogsAt poll k prev then 0 else k * cfg.interval - lastChange

/-- Variable `last_change_time` for the next iteration (line 264). -/
def nextLastChange (cfg : WatchCfg) (poll : Nat → Nat)
    (k prev lastChange : Nat) : Nat :=
  if 0 < newLogsAt poll k prev then k * cfg.interval else lastChange

/-- The `while True` watch loop of lines 248-281: on each tick poll the
count, stop with the current count when no increase has been seen for
`no_change_timeout` seconds and the count is positive (line 270), else
stop with the current count when the absolute timeout is positive and the
elapsed time has reached it (line 276), else sleep and continue. -/
def watchAux (cfg : WatchCfg) (poll : Nat → Nat) :
    Nat → Nat → Nat → Nat → Option (Nat × StopReason)
  | 0, _, _, _ => none
  | fuel + 1, k, prev, lastChange =>
    if cfg.noChangeTimeout ≤ sinceLastChange cfg poll k prev lastChange ∧ 0 < poll k then
      some (poll k, StopReason.noChange)
    else if 0 < cfg.timeout ∧ cfg.timeout ≤ k * cfg.interval then
      some (poll k, StopReason.timeoutHit)
    else
      watchAux cfg poll fuel (k + 1) (poll k) (nextLastChange cfg poll k prev lastChange)

/-- The watch from its initial state: `prev_count = 0` and
`last_change_time = start_time` (lines 243-245). -/
def watch (cfg : WatchCfg) (poll : Nat → Nat) (fuel : Nat) :
    Option (Nat × StopReason) :=
  watchAux cfg poll fuel 0 0 0

/-- Any returned count is a polled count, and a `noChange` stop implies the
no-change condition held with a positive count at the stopping tick. -/
lemma watchAux_some_inv (cfg : WatchCfg) (poll : Nat → Nat) :
    ∀ (fuel k prev lastChange : Nat) (c : Nat) (r : StopReason),
      watchAux cfg poll fuel k prev lastChange = some (c, r) →
      ∃ j p lc, c = poll j ∧
        (r = StopReason.noChange →
          cfg.noChangeTimeout ≤ sinceLastChange cfg poll j p lc ∧ 0 < c) := by
  intro fuel
  induction fuel with
  | zero =>
    intro k prev lc c r h
    simp [watchAux] at h
  | succ f ih =>
    intro k prev lc c r h
    simp only [watchAux] at h
    by_cases h1 : cfg.noChangeTimeout ≤ sinceLastChange cfg poll k prev lc ∧ 0 < poll k
    · rw [if_pos h1, Option.some.injEq, Prod.mk.injEq] at h
      obtain ⟨hc, hr⟩ := h
      refine ⟨k, prev, lc, hc.symm, fun _ => ⟨h1.1, ?_⟩⟩
      rw [← hc]
      exact h1.2
    · rw [if_neg h1] at h
      by_cases h2 : 0 < cfg.timeout ∧ cfg.timeout ≤ k * cfg.interval
      · rw [if_pos h2, Option.some.injEq, Prod.mk.injEq] at h
        obtain ⟨hc, hr⟩ := h
        refine ⟨k, prev, lc, hc.symm, fun hrnc => ?_⟩
        rw [hrnc] at hr
        exact absurd hr (by decide)
      · rw [if_neg h2] at h
        exact ih (k + 1) (poll k) (nextLastChange cfg poll k prev lc) c r h

/-- The C6 poll sequence: counts 0 and 20, then a plateau at 50. -/
def c6poll (k : Nat) : Nat := [0, 20, 50].getD k 50

/-- C6: the watch stops once the count is positive and no increase has
been seen for `noChangeSeconds`, returning the last observed count — with
`noChangeSeconds = 10` and `interval = 2`, the sequence that plateaus at
50 stops with final count 50 exactly on the tick where the plateau has
lasted 10 seconds (fuel 8 suffices, fuel 7 does not), and in general a
`noChange` stop returns a polled count that is positive with the no-change
condition satisfied at the stopping tick. -/
theorem watch_no_change_plateau_stops :
    watch ⟨10, 300, 2⟩ c6poll 8 = some (50, StopReason.noChange) ∧
    watch ⟨10, 300, 2⟩ c6poll 7 = none ∧
    (∀ (cfg : WatchCfg) (poll : Nat → Nat) (fuel k prev lastChange c : Nat),
      watchAux cfg poll fuel k prev lastChange = some (c, StopReason.noChange) →
      0 < c ∧ ∃ j p lc, c = poll j ∧
        cfg.noChangeTimeout ≤ sinceLastChange cfg poll j p lc) := by
  refine ⟨by decide, by decide, ?_⟩
  intro cfg poll fuel k prev lastChange c h
  obtain ⟨j, p, lc, hc, himp⟩ := watchAux_some_inv cfg poll fuel k prev lastChange c _ h
  obtain ⟨hsince, hpos⟩ := himp rfl
  exact ⟨hpos, j, p, lc, hc, hsince⟩

/-- Witness for the general C6 conjunct, instantiated with the concrete
plateau run of the first conjunct. -/
theorem watch_no_change_plateau_stops_witness : (0 : Nat) < 50 :=
  (watch_no_change_plateau_stops.2.2 ⟨10, 300, 2⟩ c6poll 8 0 0 0 50
    watch_no_change_plateau_stops.1).1

/-- With a positive absolute timeout, `timeout + 1` iterations always
suffice to stop, whatever the poll sequence does. -/
lemma watchAux_isSome_of_timeout (cfg : WatchCfg) (poll : Nat → Nat)
    (htime : 0 < cfg.timeout) :
    ∀ (f k prev lastChange : Nat), cfg.timeout ≤ (k + f) * cfg.interval →
      (watchAux cfg poll (f + 1) k prev lastChange).isSome = true := by
  intro f
  induction f with
  | zero =>
    intro k prev lc hb
    simp only [watchAux]
    by_cases h1 : cfg.noChangeTimeout ≤ sinceLastChange cfg poll k prev lc ∧ 0 < poll k
    · rw [if_pos h1]
      rfl
    · rw [if_neg h1, if_pos ⟨htime, by simpa using hb⟩]
      rfl
  | succ f ih =>
    intro k prev lc hb
    simp only [watchAux]
    by_cases h1 : cfg.noChangeTimeout ≤ sinceLastChange cfg poll k prev lc ∧ 0 < poll k
    · rw [if_pos h1]
      rfl
    · rw [if_neg h1]
      by_cases h2 : 0 < cfg.timeout ∧ cfg.timeout ≤ k * cfg.interval
      · rw [if_pos h2]
        rfl
      · rw [if_neg h2]
        have hb' : cfg.timeout ≤ (k + 1 + f) * cfg.interval := by
          have he : k + (f + 1) = k + 1 + f := by omega
          rw [← he]
          exact hb
        exact ih (k + 1) (poll k) (nextLastChange cfg poll k prev lc) hb'

/-- C7: the absolute timeout is a backstop checked on every tick: for
every poll sequence, a watch given `timeoutSeconds + 1` ticks of fuel
terminates (it can never block indefinitely once elapsed time reaches the
timeout), and whatever it returns is the count observed at the stopping
tick. -/
theorem watch_absolute_timeout_backstop (cfg : WatchCfg) (poll : Nat → Nat)
    (htime : 0 < cfg.timeout) (hint : 0 < cfg.interval) :
    (watch cfg poll (cfg.timeout + 1)).isSome = true ∧
    (∀ (fuel k prev lastChange c : Nat) (r : StopReason),
      watchAux cfg poll fuel k prev lastChange = some (c, r) → ∃ j, c = poll j) := by
  constructor
  · have hb : cfg.timeout ≤ (0 + cfg.timeout) * cfg.interval := by
      have h1 : cfg.timeout * 1 ≤ cfg.timeout * cfg.interval :=
        Nat.mul_le_mul_left _ hint
      simpa using h1
    exact watchAux_isSome_of_timeout cfg poll htime cfg.timeout 0 0 0 hb
  · intro fuel k prev lastChange c r h
    obtain ⟨j, _, _, hc, _⟩ := watchAux_some_inv cfg poll fuel k prev lastChange c r h
    exact ⟨j, hc⟩

/-- Witness for C7: a poll sequence stuck at zero still terminates within
the fuel bound when `timeout = 4` and `interval = 2`. -/
theorem watch_absolute_timeout_backstop_witness :
    (watch ⟨10, 4, 2⟩ (fun _ => 0) 5).isSome = true :=
  (watch_absolute_timeout_backstop ⟨10, 4, 2⟩ (fun _ => 0)
    (by decide) (by decide)).1

end SyslogServer
